import Mathlib

/-
Verification of the backtest simulation engine of the
binance-futures-trading-bot repository.

The development shallowly embeds the accounting core of
`BasicBackTestBot` (src/backtest/bot.ts): the wallet / position ledger,
the order execution function, the pending-order matching loop, the
liquidation check, the max-trade-duration force close, the sliding
candle-window indexer, and the sweep orchestrator's report comparison
functions.  Monetary amounts are modelled as exact rationals; the
source's floating point arithmetic is the same formulas evaluated
approximately.  The embedding is per traded symbol: every claim under
study quantifies over a single symbol's position and pending orders,
and the source code accesses exactly one position record (found by
`pair`) in each of the embedded functions.
-/

namespace Backtest

/-! ## Data model and embedded operations -/

/-- Order side, `'BUY' | 'SELL'` in the source. -/
inductive Side where
  | BUY
  | SELL
  deriving DecidableEq, Repr

/-- Position side tag, `'LONG' | 'SHORT'` in the source. -/
inductive PositionSide where
  | LONG
  | SHORT
  deriving DecidableEq, Repr

/-- Order type, `'MARKET' | 'LIMIT' | 'STOP' | 'STOP_MARKET'`. -/
inductive OrderType where
  | MARKET
  | LIMIT
  | STOP
  | STOP_MARKET
  deriving DecidableEq, Repr

/-- Action column of a trades-historic row. -/
inductive TradeAction where
  | OPEN
  | CLOSE
  deriving DecidableEq, Repr

/-- One position record of the wallet (interface `Position`).  The
`pair` string is dropped: the embedding is for a single symbol. -/
structure Position where
  leverage : ℚ
  entryPrice : ℚ
  margin : ℚ
  positionSide : PositionSide
  unrealizedProfit : ℚ
  size : ℚ
  deriving DecidableEq, Repr

/-- The futures wallet (interface `Wallet`), restricted to its scalar
fields; the single position is carried separately in `BotState`. -/
structure Wallet where
  availableBalance : ℚ
  totalWalletBalance : ℚ
  totalUnrealizedProfit : ℚ
  deriving DecidableEq, Repr

/-- A pending order (interface `Order`).  The source draws ids with
`Math.random`; here ids are supplied by the caller. -/
structure Order where
  id : ℕ
  type : OrderType
  side : Side
  price : ℚ
  quantity : ℚ
  deriving DecidableEq, Repr

/-- The counters of `StrategyReport` that the embedded operations
mutate. -/
structure StrategyReport where
  totalTrades : ℕ
  totalLongTrades : ℕ
  totalShortTrades : ℕ
  totalFees : ℚ
  totalProfit : ℚ
  totalLoss : ℚ
  longWinningTrade : ℕ
  longLostTrade : ℕ
  shortWinningTrade : ℕ
  shortLostTrade : ℕ
  deriving DecidableEq, Repr

/-- Initial (all zero) report counters. -/
def StrategyReport.init : StrategyReport :=
  ⟨0, 0, 0, 0, 0, 0, 0, 0, 0, 0⟩

/-- One row of the trades historic (`addToHistoric`).  `pnl` is an
option because the source passes `null` for plain opens. -/
structure TradesHistoricRow where
  side : Side
  type : OrderType
  action : TradeAction
  size : ℚ
  price : ℚ
  pnl : Option ℚ
  balance : ℚ
  deriving DecidableEq, Repr

/-- One OHLC bar (interface `CandleData`); times are integer
timestamps. -/
structure CandleData where
  openCandle : ℚ
  high : ℚ
  low : ℚ
  close : ℚ
  openTime : ℤ
  closeTime : ℤ
  deriving DecidableEq, Repr

/-- The exchange fee configuration: `taker_fees_futures` and
`maker_fees_futures` of `BotConfig`, in percent. -/
structure FeesCfg where
  takerFees : ℚ
  makerFees : ℚ
  deriving DecidableEq, Repr

/-- The mutable per-symbol state of `BasicBackTestBot` touched by the
embedded operations: the wallet, the symbol's position, the pending
orders of the symbol, the report counters and the trades historic. -/
structure BotState where
  wallet : Wallet
  position : Position
  openOrders : List Order
  report : StrategyReport
  historic : List TradesHistoricRow
  deriving DecidableEq, Repr

/-- Modelled from the spec: the repository's `utils/math` module is not
among the provided sources.  Per the spec's symbol-metadata contract
("quantity/price decimal precision per symbol, used to round all order
quantities/prices"), `decimalRound x p` rounds `x` to `p` decimal
places, JavaScript `Math.round` style (half away from minus infinity).
-/
def decimalRound (x : ℚ) (p : ℕ) : ℚ :=
  ((⌊x * 10 ^ p + 1 / 2⌋ : ℤ) : ℚ) / 10 ^ p

/-- `getPositionPNL`: unrealized profit of a position at a price. -/
def getPositionPNL (position : Position) (currentPrice : ℚ) : ℚ :=
  if position.size ≠ 0 ∧ 0 < position.margin ∧ 0 < position.entryPrice then
    let priceChangePercent :=
      (currentPrice - position.entryPrice) / position.entryPrice
    let positionValue := |position.size * position.entryPrice|
    let pnl := positionValue * priceChangePercent
    if position.positionSide = PositionSide.LONG then pnl else -pnl
  else 0

/-- `updatePositionMargin`: margin is recomputed from the entry price
and the signed size, never from the current market price. -/
def updatePositionMargin (position : Position) : Position :=
  { position with
    margin := |position.size * position.entryPrice| / position.leverage }

/-- `updateWalletOnPositionClose`: releases margin computed from the
position's current entry price and credits the realized pnl (minus
fees) to the total balance. -/
def updateWalletOnPositionClose (wallet : Wallet) (position : Position)
    (closedQuantity pnl fees : ℚ) : Wallet :=
  let releasedMargin :=
    |closedQuantity * position.entryPrice| / position.leverage
  { wallet with
    availableBalance := wallet.availableBalance + releasedMargin - fees
    totalWalletBalance := wallet.totalWalletBalance + pnl - fees }

/-- `updateTradeStats`: win/loss counters and totals on a close. -/
def updateTradeStats (report : StrategyReport) (position : Position)
    (pnl : ℚ) : StrategyReport :=
  if 0 < pnl then
    { report with
      longWinningTrade :=
        if position.positionSide = PositionSide.LONG then
          report.longWinningTrade + 1
        else report.longWinningTrade
      shortWinningTrade :=
        if position.positionSide = PositionSide.SHORT then
          report.shortWinningTrade + 1
        else report.shortWinningTrade
      totalProfit := report.totalProfit + pnl }
  else
    { report with
      longLostTrade :=
        if position.positionSide = PositionSide.LONG then
          report.longLostTrade + 1
        else report.longLostTrade
      shortLostTrade :=
        if position.positionSide = PositionSide.SHORT then
          report.shortLostTrade + 1
        else report.shortLostTrade
      totalLoss := report.totalLoss + pnl }

/-- `addToHistoric`: appends a row; the balance column reads the
wallet's current total balance. -/
def addToHistoric (st : BotState) (side : Side) (type : OrderType)
    (action : TradeAction) (size price : ℚ) (pnl : Option ℚ) : BotState :=
  { st with
    historic := st.historic ++
      [⟨side, type, action, size, price, pnl, st.wallet.totalWalletBalance⟩] }

/-- `closeOpenOrder`: drop one pending order by id. -/
def closeOpenOrder (st : BotState) (orderId : ℕ) : BotState :=
  { st with openOrders := st.openOrders.filter (fun o => o.id ≠ orderId) }

/-- `closeOpenOrders`: drop every pending order of the symbol. -/
def closeOpenOrders (st : BotState) : BotState :=
  { st with openOrders := [] }

/-- The MARKET branch of `order` when the order opens or adds to a
position: condition
`(!hasPosition) || (LONG && BUY) || (SHORT && SELL)`. -/
def marketOpenCond (position : Position) (side : Side) : Prop :=
  position.size = 0 ∨
    (position.size ≠ 0 ∧ position.positionSide = PositionSide.LONG ∧
      side = Side.BUY) ∨
    (position.size ≠ 0 ∧ position.positionSide = PositionSide.SHORT ∧
      side = Side.SELL)

instance (position : Position) (side : Side) :
    Decidable (marketOpenCond position side) := by
  unfold marketOpenCond; infer_instance

/-- `order`: executes an order against the state.  MARKET orders apply
immediately (open/add branch with a balance check, else the
close/reduce branch); LIMIT orders are queued subject to the
`canOrder` balance check; STOP and STOP_MARKET orders are queued
unconditionally.  `oid` stands for the random id the source draws. -/
def order (cfg : FeesCfg) (quantityPrecision oid : ℕ) (price quantity : ℚ)
    (side : Side) (type : OrderType) (st : BotState) : BotState :=
  let position := st.position
  let size := position.size
  let entryPrice := position.entryPrice
  let leverage := position.leverage
  let hasPosition := size ≠ 0
  match type with
  | OrderType.MARKET =>
    let fees := price * |quantity| * (cfg.takerFees / 100)
    if marketOpenCond position side then
      -- Opening or adding to position
      let requiredMargin := price * |quantity| / leverage
      if st.wallet.availableBalance ≥ requiredMargin + fees then
        let fixedQuantity := decimalRound quantity quantityPrecision
        let totalCost := price * |fixedQuantity| +
          (if hasPosition then entryPrice * |size| else 0)
        let totalQuantity := |fixedQuantity| +
          (if hasPosition then |size| else 0)
        let newEntryPrice := totalCost / totalQuantity
        let position1 := updatePositionMargin
          { position with
            size := size + fixedQuantity
            entryPrice := newEntryPrice
            positionSide :=
              if side = Side.BUY then PositionSide.LONG
              else PositionSide.SHORT }
        let wallet1 :=
          { st.wallet with
            availableBalance :=
              st.wallet.availableBalance - (requiredMargin + fees)
            totalWalletBalance := st.wallet.totalWalletBalance - fees }
        let report1 :=
          if ¬hasPosition then
            { st.report with
              totalTrades := st.report.totalTrades + 1
              totalLongTrades :=
                if side = Side.BUY then st.report.totalLongTrades + 1
                else st.report.totalLongTrades
              totalShortTrades :=
                if side = Side.SELL then st.report.totalShortTrades + 1
                else st.report.totalShortTrades }
          else st.report
        let report2 := { report1 with totalFees := report1.totalFees + fees }
        addToHistoric
          { st with wallet := wallet1, position := position1, report := report2 }
          side type TradeAction.OPEN fixedQuantity price none
      else st
    else if (position.positionSide = PositionSide.LONG ∧ side = Side.SELL) ∨
        (position.positionSide = PositionSide.SHORT ∧ side = Side.BUY) then
      -- Closing or reducing position
      let closingPnL := getPositionPNL position price
      let fixedQuantity := decimalRound quantity quantityPrecision
      let position1 := { position with size := size + fixedQuantity }
      let stepped :=
        if position1.size = 0 then
          -- Position fully closed: update stats, then reset the record
          let report1 := updateTradeStats st.report position1 closingPnL
          ({ position1 with
             margin := 0, entryPrice := 0, unrealizedProfit := 0 }, report1)
        else
          (updatePositionMargin position1, st.report)
      let position2 := stepped.1
      let wallet1 := updateWalletOnPositionClose st.wallet position2
        fixedQuantity closingPnL fees
      addToHistoric
        { st with
          wallet := wallet1, position := position2, report := stepped.2 }
        side type TradeAction.CLOSE fixedQuantity price (some closingPnL)
    else st
  | OrderType.LIMIT =>
    let baseCost := |price * quantity| / position.leverage - position.margin
    let canOrder : Bool :=
      if position.size ≠ 0 then
        if side = (if position.positionSide = PositionSide.LONG then Side.BUY
                   else Side.SELL) then
          decide (st.wallet.availableBalance ≥ baseCost) -- average the position
        else true -- take profit or stop loss
      else decide (st.wallet.availableBalance ≥ baseCost) -- new position
    if canOrder then
      { st with openOrders :=
          st.openOrders ++ [⟨oid, type, side, price, quantity⟩] }
    else st
  | OrderType.STOP =>
    { st with openOrders :=
        st.openOrders ++ [⟨oid, type, side, price, quantity⟩] }
  | OrderType.STOP_MARKET =>
    { st with openOrders :=
        st.openOrders ++ [⟨oid, type, side, price, quantity⟩] }

/-- The liquidation condition of `checkPositionMargin`:
`size !== 0 && margin + unrealizedPnL <= |size * currentPrice| * 0.005`.
-/
def liquidationCond (position : Position) (currentPrice : ℚ) : Prop :=
  position.size ≠ 0 ∧
    position.margin + getPositionPNL position currentPrice ≤
      |position.size * currentPrice| * (5 / 1000)

instance (position : Position) (currentPrice : ℚ) :
    Decidable (liquidationCond position currentPrice) := by
  unfold liquidationCond; infer_instance

/-- `checkPositionMargin`: if the margin plus unrealized pnl falls to
the maintenance margin (rate 0.5%), the position is force closed by a
market order at the current price, every pending order of the symbol
is canceled, the trade statistics are updated and a historic row is
appended (with the size and side captured before the close). -/
def checkPositionMargin (cfg : FeesCfg) (quantityPrecision oid : ℕ)
    (currentPrice : ℚ) (st : BotState) : BotState :=
  let position := st.position
  let size := position.size
  let positionSide := position.positionSide
  let unrealizedProfit := getPositionPNL position currentPrice
  if liquidationCond position currentPrice then
    let st1 := order cfg quantityPrecision oid currentPrice (-size)
      (if positionSide = PositionSide.LONG then Side.SELL else Side.BUY)
      OrderType.MARKET st
    let st2 := closeOpenOrders st1
    let st3 := { st2 with
      report := updateTradeStats st2.report st2.position unrealizedProfit }
    addToHistoric st3
      (if positionSide = PositionSide.LONG then Side.SELL else Side.BUY)
      OrderType.MARKET TradeAction.CLOSE (-size) currentPrice
      (some unrealizedProfit)
  else st

/-- The max-trade-duration force close in `trade` (the branch taken
when the symbol's duration counter reaches zero): the position record
is zeroed, the trade statistics and historic are updated with the
closing pnl, the pending orders are canceled — and the wallet is never
touched. -/
def maxDurationForceClose (currentPrice : ℚ) (st : BotState) : BotState :=
  let position := st.position
  let hasLongPosition := 0 < position.size
  let closingPnL := getPositionPNL position currentPrice
  let oldSize := position.size
  let position1 := { position with
    size := 0, margin := 0, entryPrice := 0, unrealizedProfit := 0 }
  let report1 := updateTradeStats st.report position1 closingPnL
  let st1 := addToHistoric
    { st with position := position1, report := report1 }
    (if hasLongPosition then Side.SELL else Side.BUY)
    OrderType.MARKET TradeAction.CLOSE (-oldSize) currentPrice
    (some closingPnL)
  closeOpenOrders st1

/-- The loop constants of `checkOpenOrders` destructured from the
position before any order of the bar is processed:
`const { entryPrice, size, leverage } = position` and
`hasPosition = size !== 0`. -/
structure LoopCaptured where
  entryPrice0 : ℚ
  size0 : ℚ
  leverage0 : ℚ
  deriving DecidableEq, Repr

/-- Whether a pending order's price lies strictly inside the bar's
range: `lastCandle.high > price && lastCandle.low < price`. -/
def priceTouched (lastCandle : CandleData) (price : ℚ) : Prop :=
  lastCandle.high > price ∧ lastCandle.low < price

instance (lastCandle : CandleData) (price : ℚ) :
    Decidable (priceTouched lastCandle price) := by
  unfold priceTouched; infer_instance

/-- The close-side guard used (twice) by the LIMIT branch of
`checkOpenOrders`:
`(LONG && side === 'SELL') || (SHORT && side === 'BUY')`. -/
def limitGuard (position : Position) (side : Side) : Prop :=
  (position.positionSide = PositionSide.LONG ∧ side = Side.SELL) ∨
    (position.positionSide = PositionSide.SHORT ∧ side = Side.BUY)

instance (position : Position) (side : Side) :
    Decidable (limitGuard position side) := by
  unfold limitGuard; infer_instance

/-- First guarded block of the LIMIT branch of `checkOpenOrders`: the
averaging/open update.  The average entry price and the base cost use
the entry price, size and leverage captured at loop entry. -/
def limitFillOpen (cfg : FeesCfg) (cap : LoopCaptured) (o : Order)
    (st : BotState) : BotState :=
  let fees := |o.quantity| * o.price * (cfg.makerFees / 100)
  if limitGuard st.position o.side then
    let baseCost := o.price * |o.quantity| / cap.leverage0
    if st.wallet.availableBalance ≥ baseCost + fees then
      let avgEntryPrice :=
        (o.price * |o.quantity| + cap.entryPrice0 * |cap.size0|) /
          (|o.quantity| + |cap.size0|)
      let position1 := updatePositionMargin
        { st.position with
          size := st.position.size + o.quantity
          entryPrice := avgEntryPrice }
      let wallet1 := { st.wallet with
        availableBalance := st.wallet.availableBalance - (baseCost + fees)
        totalWalletBalance := st.wallet.totalWalletBalance - fees }
      let report1 :=
        if ¬cap.size0 ≠ 0 then
          { st.report with
            totalTrades := st.report.totalTrades + 1
            totalLongTrades :=
              if o.side = Side.BUY then st.report.totalLongTrades + 1
              else st.report.totalLongTrades
            totalShortTrades :=
              if o.side = Side.SELL then st.report.totalShortTrades + 1
              else st.report.totalShortTrades }
        else st.report
      let report2 := { report1 with totalFees := report1.totalFees + fees }
      addToHistoric
        { st with wallet := wallet1, position := position1, report := report2 }
        o.side OrderType.LIMIT TradeAction.OPEN o.quantity o.price none
    else st
  else st

/-- Second guarded block of the LIMIT branch of `checkOpenOrders`: the
close/reduce update, including the position side flip when the size
crosses zero. -/
def limitFillClose (cfg : FeesCfg) (o : Order) (st : BotState) : BotState :=
  let fees := |o.quantity| * o.price * (cfg.makerFees / 100)
  if limitGuard st.position o.side then
    let closingPnL := getPositionPNL st.position o.price
    let position1 := updatePositionMargin
      { st.position with size := st.position.size + o.quantity }
    let wallet1 := updateWalletOnPositionClose st.wallet position1
      o.quantity closingPnL fees
    let stepped :=
      if position1.size = 0 then
        ({ position1 with entryPrice := 0, unrealizedProfit := 0, margin := 0 },
          updateTradeStats st.report position1 closingPnL)
      else (position1, st.report)
    let position2 := stepped.1
    let report1 := stepped.2
    let flipped :=
      if (position2.positionSide = PositionSide.SHORT ∧ 0 < position2.size) ∨
          (position2.positionSide = PositionSide.LONG ∧ position2.size < 0) then
        let position3 := { position2 with
          entryPrice := o.price
          positionSide :=
            if position2.positionSide = PositionSide.LONG then
              PositionSide.SHORT
            else PositionSide.LONG }
        let position4 :=
          { position3 with
            unrealizedProfit := getPositionPNL position3 o.price }
        let wallet2 := { wallet1 with
          availableBalance := wallet1.availableBalance - position4.margin }
        let report2 := { report1 with
          totalTrades := report1.totalTrades + 1
          totalShortTrades :=
            if o.side = Side.SELL then report1.totalShortTrades + 1
            else report1.totalShortTrades
          totalLongTrades :=
            if o.side = Side.BUY then report1.totalLongTrades + 1
            else report1.totalLongTrades }
        (position4, wallet2, report2)
      else (position2, wallet1, report1)
    addToHistoric
      { st with
        position := flipped.1, wallet := flipped.2.1, report := flipped.2.2 }
      o.side OrderType.LIMIT
      (if flipped.1.size = 0 then TradeAction.CLOSE else TradeAction.OPEN)
      o.quantity o.price (some closingPnL)
  else st

/-- The STOP / STOP_MARKET branch of `checkOpenOrders`: close/reduce
at the trigger price (maker fee for STOP, taker fee for STOP_MARKET),
then cancel every pending order of the symbol. -/
def stopFill (cfg : FeesCfg) (o : Order) (st : BotState) : BotState :=
  let fees :=
    if o.type = OrderType.STOP then
      |o.quantity| * o.price * (cfg.makerFees / 100)
    else |o.quantity| * o.price * (cfg.takerFees / 100)
  let closingPnL := getPositionPNL st.position o.price
  let position1 := updatePositionMargin
    { st.position with size := st.position.size + o.quantity }
  let wallet1 := updateWalletOnPositionClose st.wallet position1
    o.quantity closingPnL fees
  let stepped :=
    if position1.size = 0 then
      ({ position1 with entryPrice := 0, unrealizedProfit := 0, margin := 0 },
        updateTradeStats st.report position1 closingPnL)
    else (position1, st.report)
  let st1 := addToHistoric
    { st with position := stepped.1, wallet := wallet1, report := stepped.2 }
    o.side o.type TradeAction.CLOSE o.quantity o.price (some closingPnL)
  closeOpenOrders st1

/-- The body of the `every` callback of `checkOpenOrders` for one
pending order (without the final size-zero early-exit test). -/
def processOrder (cfg : FeesCfg) (cap : LoopCaptured)
    (lastCandle : CandleData) (st : BotState) (o : Order) : BotState :=
  if o.type = OrderType.LIMIT ∧ priceTouched lastCandle o.price then
    closeOpenOrder (limitFillClose cfg o (limitFillOpen cfg cap o st)) o.id
  else if (o.type = OrderType.STOP ∨ o.type = OrderType.STOP_MARKET) ∧
      priceTouched lastCandle o.price then
    stopFill cfg o st
  else st

/-- The `every` loop of `checkOpenOrders` over the sorted snapshot of
pending orders: after each order's processing, if the position size is
zero, every remaining pending order is canceled and the loop stops. -/
def checkOrdersLoop (cfg : FeesCfg) (cap : LoopCaptured)
    (lastCandle : CandleData) : BotState → List Order → BotState
  | st, [] => st
  | st, o :: rest =>
    let st1 := processOrder cfg cap lastCandle st o
    if st1.position.size = 0 then closeOpenOrders st1
    else checkOrdersLoop cfg cap lastCandle st1 rest

/-- Stable insertion of an order into a price-descending sorted list;
models the JavaScript stable `sort((o1, o2) => o2.price - o1.price)`. -/
def insertPriceDesc (o : Order) : List Order → List Order
  | [] => [o]
  | x :: xs =>
    if x.price < o.price then o :: x :: xs else x :: insertPriceDesc o xs

/-- Price-descending stable sort of the pending-order snapshot. -/
def sortPriceDesc (orders : List Order) : List Order :=
  orders.foldr insertPriceDesc []

/-- `checkOpenOrders`: resolve the symbol's pending orders against the
last bar, in price-descending sorted order, stopping as soon as the
position size is zero after an order's processing. -/
def checkOpenOrders (cfg : FeesCfg) (lastCandle : CandleData)
    (st : BotState) : BotState :=
  if st.openOrders = [] then st
  else
    let cap : LoopCaptured :=
      ⟨st.position.entryPrice, st.position.size, st.position.leverage⟩
    checkOrdersLoop cfg cap lastCandle st (sortPriceDesc st.openOrders)

/-- The body of the `for` loop of `updateCandleDataIndexes`, one
iteration per fuel unit, scanning index `i` from the previous end:
break (returning `(start, i - 1)`) at the first index `i > 0` whose
bar's close time is after the current date; otherwise advance `start`
whenever `i - start` exceeds the maximum window length. -/
def updateCandleIndexesGo (pairCandles : List CandleData)
    (currentDate : ℤ) (maxLen : ℕ) :
    ℕ → ℕ → ℕ → ℕ → ℕ × ℕ
  | 0, _, indexStart, indexEnd => (indexStart, indexEnd)
  | fuel + 1, i, indexStart, indexEnd =>
    if h : i < pairCandles.length then
      if currentDate < (pairCandles.get ⟨i, h⟩).closeTime ∧ 0 < i then
        (indexStart, i - 1)
      else
        updateCandleIndexesGo pairCandles currentDate maxLen fuel (i + 1)
          (if maxLen < i - indexStart then indexStart + 1 else indexStart)
          indexEnd
    else (indexStart, indexEnd)

/-- `updateCandleDataIndexes`: returns the new `(indexStart, indexEnd)`
pair for a symbol/timeframe given the previous pair, the loaded bars
and the current simulated date.  `maxLen` stands for the constant
`MAX_LOADED_CANDLE_LENGTH_API`.  `dayjs(x).isAfter(y)` is the strict
order on timestamps. -/
def updateCandleDataIndexes (pairCandles : List CandleData)
    (currentDate : ℤ) (maxLen indexStart indexEnd : ℕ) : ℕ × ℕ :=
  updateCandleIndexesGo pairCandles currentDate maxLen
    (pairCandles.length - indexEnd) indexEnd indexStart indexEnd

/-- The fields of `StrategyReport` read by the orchestrator's
comparison functions. -/
structure OptimReport where
  finalCapital : ℚ
  initialCapital : ℚ
  maxRelativeDrawdown : ℚ
  deriving DecidableEq, Repr

/-- Return on investment of a report, as used by both comparison
functions. -/
def reportRoi (r : OptimReport) : ℚ :=
  (r.finalCapital - r.initialCapital) / r.initialCapital

/-- Risk-adjusted score: ROI divided by the absolute relative
drawdown, with the zero-drawdown guard. -/
def reportScore (r : OptimReport) : ℚ :=
  let drawdown := |r.maxRelativeDrawdown|
  if drawdown = 0 then reportRoi r else reportRoi r / drawdown

/-- `compareStrategyReport` of the worker-thread sweep orchestrator
(backtest/optimizeWithWorkers): returns true when `a` is better than
`b`.  ROI wins outright when it exceeds the competitor's by more than
50%, otherwise the risk-adjusted scores are compared. -/
def compareStrategyReportWorkers (a b : OptimReport) : Bool :=
  let roiA := reportRoi a
  let roiB := reportRoi b
  if roiB * (15 / 10) < roiA then true
  else if roiA * (15 / 10) < roiB then false
  else decide (reportScore b < reportScore a)

/-- `compareStrategyReport` of the batch sweep orchestrator
(backtest/optimize): pure risk-adjusted score comparison. -/
def compareStrategyReportBatch (a b : OptimReport) : Bool :=
  decide (reportScore b < reportScore a)

/-- A fee configuration with a 0.1% taker fee and no maker fee. -/
def cfgTaker : FeesCfg := ⟨1 / 10, 0⟩

/-- A zero-fee configuration. -/
def cfgZero : FeesCfg := ⟨0, 0⟩

/-- Fresh account: wallet of 10,000, flat position with leverage 1. -/
def stFlat : BotState :=
  ⟨⟨10000, 10000, 0⟩, ⟨1, 0, 0, PositionSide.LONG, 0, 0⟩, [],
    StrategyReport.init, []⟩

/-- Scenario A: market BUY of 1 unit at price 100 from the fresh
account. -/
def stOpened : BotState :=
  order cfgTaker 0 1 100 1 Side.BUY OrderType.MARKET stFlat

/-- Scenario B: market SELL of 1 unit at price 110 closing the
Scenario A position. -/
def stClosed : BotState :=
  order cfgTaker 0 2 110 (-1) Side.SELL OrderType.MARKET stOpened

/-- A long position of 1 unit entered at 100 with leverage 1. -/
def posLong1 : Position := ⟨1, 100, 100, PositionSide.LONG, 0, 1⟩

/-- A bar spanning the range [90, 120]. -/
def candleWide : CandleData := ⟨100, 120, 90, 100, 0, 1⟩

/-- A pending SELL limit (take profit) for 1 unit at 110. -/
def sellLimitOrder : Order := ⟨1, OrderType.LIMIT, Side.SELL, 110, -1⟩

/-- A pending BUY limit for 1 unit at 105. -/
def buyLimitOrder : Order := ⟨2, OrderType.LIMIT, Side.BUY, 105, 1⟩

/-- Account holding `posLong1` with the two pending limit orders. -/
def stTwoLimits : BotState :=
  ⟨⟨10000, 10000, 0⟩, posLong1, [sellLimitOrder, buyLimitOrder],
    StrategyReport.init, []⟩

/-- Account holding `posLong1` with only the take-profit pending. -/
def stOneLimit : BotState :=
  ⟨⟨10000, 10000, 0⟩, posLong1, [sellLimitOrder], StrategyReport.init, []⟩

/-- Account holding `posLong1`, with its 100 margin locked
(available 9,900 of 10,000 total). -/
def stHeld : BotState :=
  ⟨⟨9900, 10000, 0⟩, posLong1, [], StrategyReport.init, []⟩

/-- An account whose available balance is zero. -/
def stPoor : BotState :=
  ⟨⟨0, 0, 0⟩, ⟨1, 0, 0, PositionSide.LONG, 0, 0⟩, [],
    StrategyReport.init, []⟩

/-- Two bars with close times 1 and 2. -/
def barOne : CandleData := ⟨0, 0, 0, 0, 0, 1⟩

/-- See `barOne`. -/
def barTwo : CandleData := ⟨0, 0, 0, 0, 0, 2⟩

/-- Report with ROI 20% and relative drawdown 10% (score 2.0). -/
def repA : OptimReport := ⟨12000, 10000, -1 / 10⟩

/-- Report with ROI 25% and relative drawdown 20% (score 1.25). -/
def repB : OptimReport := ⟨12500, 10000, -1 / 5⟩

instance : Inhabited CandleData := ⟨⟨0, 0, 0, 0, 0, 0⟩⟩

/-- Modelled from the spec (reference definition, for comparison with
the code's indexer): the index of the last bar whose close time is not
after the timestamp, if any. -/
def lastIndexNotAfterSpec (pairCandles : List CandleData)
    (currentDate : ℤ) : Option ℕ :=
  ((List.range pairCandles.length).filter
    (fun i => decide ((pairCandles.getD i default).closeTime ≤
      currentDate))).getLast?

/-- The margin invariant. -/
def marginInv (position : Position) : Prop :=
  position.margin = |position.size * position.entryPrice| / position.leverage

instance (position : Position) : Decidable (marginInv position) := by
  unfold marginInv; infer_instance

/-- The side-flip condition of the LIMIT close block, expressed on the
position the block receives: the signed size crosses to the opposite
sign. -/
def limitFlip (position : Position) (o : Order) : Prop :=
  (position.positionSide = PositionSide.SHORT ∧
    0 < position.size + o.quantity) ∨
  (position.positionSide = PositionSide.LONG ∧
    position.size + o.quantity < 0)

instance (position : Position) (o : Order) :
    Decidable (limitFlip position o) := by
  unfold limitFlip; infer_instance

/-- A pending SELL limit for half a unit at 110. -/
def halfCloseOrder : Order := ⟨3, OrderType.LIMIT, Side.SELL, 110, -1/2⟩

/-- The per-bar iteration of the liquidation check over a price
sequence, with no other operation interleaved (the simulation loop
invokes `checkPositionMargin` once per bar). -/
def liquidationSweep (cfg : FeesCfg) (qp oid : ℕ) (st : BotState)
    (prices : List ℚ) : BotState :=
  prices.foldl (fun s p => checkPositionMargin cfg qp oid p s) st

/-- A long of 1 unit at entry 100 with leverage 10 (margin 10),
a stop pending, 9,990 available of 10,000 total. -/
def stLev10 : BotState :=
  ⟨⟨9990, 10000, 0⟩, ⟨10, 100, 10, PositionSide.LONG, 0, 1⟩,
    [⟨4, OrderType.STOP, Side.SELL, 80, -1⟩], StrategyReport.init, []⟩

/-- The break predicate of the indexer loop: bar `j` exists, closes
strictly after the timestamp, and is not the very first bar. -/
def breakAt (pairCandles : List CandleData) (currentDate : ℤ)
    (j : ℕ) : Prop :=
  j < pairCandles.length ∧
    currentDate < (pairCandles.getD j default).closeTime ∧ 0 < j

instance (pairCandles : List CandleData) (currentDate : ℤ) (j : ℕ) :
    Decidable (breakAt pairCandles currentDate j) := by
  unfold breakAt; infer_instance

/-- A bar with close time 10. -/
def barTen : CandleData := ⟨0, 0, 0, 0, 0, 10⟩

/-- Bars closing at times 1, 2 and 10. -/
def threeBars : List CandleData := [barOne, barTwo, barTen]

/-! ## Lemmas and theorems -/

/-- Constructor disequality, in rewrite form for evaluation. -/
lemma sell_eq_buy_false : (Side.SELL = Side.BUY) = False :=
  eq_false fun h => nomatch h

/-- Constructor disequality, in rewrite form for evaluation. -/
lemma buy_eq_sell_false : (Side.BUY = Side.SELL) = False :=
  eq_false fun h => nomatch h

/-- Constructor disequality, in rewrite form for evaluation. -/
lemma long_eq_short_false : (PositionSide.LONG = PositionSide.SHORT) = False :=
  eq_false fun h => nomatch h

/-- Constructor disequality, in rewrite form for evaluation. -/
lemma short_eq_long_false : (PositionSide.SHORT = PositionSide.LONG) = False :=
  eq_false fun h => nomatch h

/-- C1: balance conservation fails on the max-trade-duration force
close.  On a long position of 1 unit at entry 100 when the price is
110, the force close records a realized pnl of +10 (in the trade
statistics and in the appended historic row) and charges no fee, yet
the wallet's total balance is left unchanged, so
`totalBalance_after = totalBalance_before + Σ pnl − Σ fees` is
violated by this fill. -/
theorem max_duration_close_breaks_balance_conservation :
    getPositionPNL stHeld.position 110 = 10 ∧
    (maxDurationForceClose 110 stHeld).report.totalProfit = 10 ∧
    (maxDurationForceClose 110 stHeld).historic.map (fun r => r.pnl) =
      [some 10] ∧
    (maxDurationForceClose 110 stHeld).wallet.totalWalletBalance =
      stHeld.wallet.totalWalletBalance ∧
    (maxDurationForceClose 110 stHeld).wallet.totalWalletBalance ≠
      stHeld.wallet.totalWalletBalance + 10 - 0 := by
  norm_num [stHeld, posLong1, maxDurationForceClose, getPositionPNL,
    updateTradeStats, addToHistoric, closeOpenOrders, StrategyReport.init,
    sell_eq_buy_false, buy_eq_sell_false, long_eq_short_false, short_eq_long_false]

/-- C2: Scenario A holds (margin 100, available 9,900 minus the 0.1
open fee) and the close realizes pnl exactly +10 on the total balance,
but Scenario B's available-balance accounting fails: the code resets
the entry price to zero before computing the released margin, so the
close changes the available balance by `0 − fee` instead of
`margin (100) + 10 − fee`. -/
theorem scenario_close_accounting :
    stOpened.position.margin = 100 ∧
    stOpened.position.size = 1 ∧
    stOpened.wallet.availableBalance = 9900 - 1 / 10 ∧
    getPositionPNL stOpened.position 110 = 10 ∧
    stClosed.wallet.totalWalletBalance =
      stOpened.wallet.totalWalletBalance + 10 - 11 / 100 ∧
    stClosed.wallet.availableBalance =
      stOpened.wallet.availableBalance + 0 - 11 / 100 ∧
    stClosed.wallet.availableBalance ≠
      stOpened.wallet.availableBalance + (100 + 10) - 11 / 100 := by
  norm_num [stOpened, stClosed, stFlat, order, marketOpenCond, decimalRound,
    updatePositionMargin, updateWalletOnPositionClose, updateTradeStats,
    addToHistoric, getPositionPNL, cfgTaker, StrategyReport.init,
    sell_eq_buy_false, buy_eq_sell_false, long_eq_short_false, short_eq_long_false]

/-- C4: a single limit fill whose open and close blocks both execute
passes the position size through zero and flips the position, after
which the next pending order of the same symbol still fills on the
same bar: processing `stTwoLimits` on the bar [90, 120], the size is
zero right after the first order's open block, yet the final state
shows both orders filled (four historic rows, two at price 110 and two
at price 105) with final size 1. -/
theorem order_fills_after_size_reached_zero :
    (limitFillOpen cfgZero
        ⟨stTwoLimits.position.entryPrice, stTwoLimits.position.size,
          stTwoLimits.position.leverage⟩
        sellLimitOrder stTwoLimits).position.size = 0 ∧
    (checkOpenOrders cfgZero candleWide stTwoLimits).position.size = 1 ∧
    (checkOpenOrders cfgZero candleWide stTwoLimits).historic.map
      (fun r => r.price) = [110, 110, 105, 105] := by
  norm_num [stTwoLimits, posLong1, candleWide, sellLimitOrder, buyLimitOrder,
    checkOpenOrders, checkOrdersLoop, sortPriceDesc, insertPriceDesc,
    processOrder, limitFillOpen, limitFillClose, stopFill, limitGuard,
    priceTouched, closeOpenOrder, closeOpenOrders, addToHistoric,
    getPositionPNL, updatePositionMargin, updateWalletOnPositionClose,
    updateTradeStats, cfgZero, StrategyReport.init, List.cons_ne_nil,
    abs_of_pos, abs_of_nonneg, sell_eq_buy_false, buy_eq_sell_false, long_eq_short_false, short_eq_long_false]

/-- C5: a pending SELL limit of quantity −1 at 110 against a long
position of size 1 is applied twice by `checkOpenOrders` (the
averaging block and the close block are guarded by the same
condition), so the position size changes by twice the order's signed
quantity: the final size is −1 instead of 1 + (−1) = 0. -/
theorem limit_fill_applied_twice :
    stOneLimit.position.size + sellLimitOrder.quantity = 0 ∧
    (checkOpenOrders cfgZero candleWide stOneLimit).position.size = -1 ∧
    (checkOpenOrders cfgZero candleWide stOneLimit).position.size =
      stOneLimit.position.size + 2 * sellLimitOrder.quantity := by
  norm_num [stOneLimit, posLong1, candleWide, sellLimitOrder,
    checkOpenOrders, checkOrdersLoop, sortPriceDesc, insertPriceDesc,
    processOrder, limitFillOpen, limitFillClose, stopFill, limitGuard,
    priceTouched, closeOpenOrder, closeOpenOrders, addToHistoric,
    getPositionPNL, updatePositionMargin, updateWalletOnPositionClose,
    updateTradeStats, cfgZero, StrategyReport.init, List.cons_ne_nil,
    abs_of_pos, abs_of_nonneg, sell_eq_buy_false, buy_eq_sell_false, long_eq_short_false, short_eq_long_false]

/-- C9: Scenario C.  With ROI 20%/drawdown 10% (score 2.0) against ROI
25%/drawdown 20% (score 1.25), both orchestrators' comparison
functions select the first report whichever argument order is used,
and the second report's ROI does not exceed the first's by more than
50%, so the risk-adjusted score comparison decides. -/
theorem best_result_selection_scenario :
    compareStrategyReportWorkers repA repB = true ∧
    compareStrategyReportWorkers repB repA = false ∧
    compareStrategyReportBatch repA repB = true ∧
    compareStrategyReportBatch repB repA = false ∧
    reportScore repA = 2 ∧
    reportScore repB = 5 / 4 ∧
    ¬ reportRoi repA * (15 / 10) < reportRoi repB := by
  norm_num [repA, repB, compareStrategyReportWorkers,
    compareStrategyReportBatch, reportScore, reportRoi, abs_of_pos,
    abs_of_nonneg]

/-- C8 counterexample: with bars closing at times 1 and 2, previous
pair `(0, 0)` and current timestamp 5, every bar's close time is at or
before the timestamp, so the spec index of the last bar not after the
timestamp is 1 — but `updateCandleDataIndexes` only advances `end`
when it finds a bar strictly after the timestamp, and returns `(0, 0)`.
-/
theorem window_end_freezes_counterexample :
    updateCandleDataIndexes [barOne, barTwo] 5 3 0 0 = (0, 0) ∧
    lastIndexNotAfterSpec [barOne, barTwo] 5 = some 1 ∧
    (updateCandleDataIndexes [barOne, barTwo] 5 3 0 0).2 ≠ 1 := by
  decide

/-- C10: a STOP or STOP_MARKET order is appended to the pending-order
set unconditionally — for every wallet state, with no balance check —
while the same request as a MARKET or LIMIT order on an empty wallet
is rejected (state unchanged, nothing queued). -/
theorem stop_orders_enqueue_unconditionally :
    (∀ (cfg : FeesCfg) (qp oid : ℕ) (price qty : ℚ) (side : Side)
        (t : OrderType) (st : BotState),
        t = OrderType.STOP ∨ t = OrderType.STOP_MARKET →
        order cfg qp oid price qty side t st =
          { st with openOrders :=
              st.openOrders ++ [⟨oid, t, side, price, qty⟩] }) ∧
    order cfgTaker 0 7 100 1 Side.BUY OrderType.MARKET stPoor = stPoor ∧
    (order cfgTaker 0 7 100 1 Side.BUY OrderType.LIMIT stPoor).openOrders
      = [] := by
  refine ⟨fun cfg qp oid price qty side t st ht => ?_, ?_, ?_⟩
  · rcases ht with rfl | rfl <;> rfl
  · norm_num [order, marketOpenCond, stPoor, cfgTaker]
  · norm_num [order, marketOpenCond, stPoor, cfgTaker]

/-- C10 witness: the universal part applied to a STOP order on the
empty wallet. -/
theorem stop_orders_enqueue_unconditionally_witness :
    order cfgZero 0 9 50 2 Side.SELL OrderType.STOP stPoor =
      { stPoor with openOrders :=
          stPoor.openOrders ++ [⟨9, OrderType.STOP, Side.SELL, 50, 2⟩] } :=
  stop_orders_enqueue_unconditionally.1 cfgZero 0 9 50 2 Side.SELL
    OrderType.STOP stPoor (Or.inl rfl)

/-- C7: a MARKET order that opens or adds to a position while
`availableBalance < requiredMargin + fee` is not applied at all: the
wallet, position, pending orders, report counters and historic are
returned unchanged, and no exception arises (the embedded operation is
total). -/
theorem insufficient_balance_market_order_rejected
    (cfg : FeesCfg) (qp oid : ℕ) (price qty : ℚ) (side : Side)
    (st : BotState) (hopen : marketOpenCond st.position side)
    (hbal : st.wallet.availableBalance <
      price * |qty| / st.position.leverage +
        price * |qty| * (cfg.takerFees / 100)) :
    order cfg qp oid price qty side OrderType.MARKET st = st := by
  simp only [order]
  rw [if_pos hopen, if_neg (not_le.mpr hbal)]

/-- C7 witness: a BUY of 1 unit at price 100 on an empty wallet is
rejected. -/
theorem insufficient_balance_market_order_rejected_witness :
    marketOpenCond stPoor.position Side.BUY ∧
    stPoor.wallet.availableBalance <
      100 * |(1 : ℚ)| / stPoor.position.leverage +
        100 * |(1 : ℚ)| * (cfgTaker.takerFees / 100) ∧
    order cfgTaker 0 7 100 1 Side.BUY OrderType.MARKET stPoor = stPoor :=
  ⟨Or.inl rfl, by norm_num [stPoor, cfgTaker],
    insufficient_balance_market_order_rejected cfgTaker 0 7 100 1 Side.BUY
      stPoor (Or.inl rfl) (by norm_num [stPoor, cfgTaker])⟩

/-- `updatePositionMargin` establishes the margin invariant. -/
lemma marginInv_updatePositionMargin (p : Position) :
    marginInv (updatePositionMargin p) := rfl

/-- A position with zero size and zero margin satisfies the
invariant. -/
lemma marginInv_zero (p : Position) (hs : p.size = 0) (hm : p.margin = 0) :
    marginInv p := by
  unfold marginInv; rw [hs, hm]; simp

/-- `order` preserves the margin invariant in every branch. -/
lemma marginInv_order (cfg : FeesCfg) (qp oid : ℕ) (price qty : ℚ)
    (side : Side) (t : OrderType) (st : BotState)
    (h : marginInv st.position) :
    marginInv (order cfg qp oid price qty side t st).position := by
  cases t
  case LIMIT =>
    simp only [order]
    repeat' split
    all_goals exact h
  case STOP => exact h
  case STOP_MARKET => exact h
  case MARKET =>
    simp only [order]
    by_cases h1 : marketOpenCond st.position side
    · rw [if_pos h1]
      by_cases h2 : st.wallet.availableBalance ≥
          price * |qty| / st.position.leverage +
            price * |qty| * (cfg.takerFees / 100)
      · rw [if_pos h2]
        exact marginInv_updatePositionMargin _
      · rw [if_neg h2]
        exact h
    · rw [if_neg h1]
      by_cases h2 : (st.position.positionSide = PositionSide.LONG ∧
            side = Side.SELL) ∨
          (st.position.positionSide = PositionSide.SHORT ∧ side = Side.BUY)
      · rw [if_pos h2]
        by_cases h3 : st.position.size + decimalRound qty qp = 0
        · rw [if_pos h3]
          exact marginInv_zero _ h3 rfl
        · rw [if_neg h3]
          exact marginInv_updatePositionMargin _
      · rw [if_neg h2]
        exact h

/-- The LIMIT averaging block preserves the margin invariant. -/
lemma marginInv_limitFillOpen (cfg : FeesCfg) (cap : LoopCaptured)
    (o : Order) (st : BotState) (h : marginInv st.position) :
    marginInv (limitFillOpen cfg cap o st).position := by
  simp only [limitFillOpen]
  by_cases h1 : limitGuard st.position o.side
  · rw [if_pos h1]
    by_cases h2 : st.wallet.availableBalance ≥
        o.price * |o.quantity| / cap.leverage0 +
          |o.quantity| * o.price * (cfg.makerFees / 100)
    · rw [if_pos h2]
      exact marginInv_updatePositionMargin _
    · rw [if_neg h2]
      exact h
  · rw [if_neg h1]
    exact h

/-- The LIMIT averaging block never changes the position side. -/
lemma positionSide_limitFillOpen (cfg : FeesCfg) (cap : LoopCaptured)
    (o : Order) (st : BotState) :
    (limitFillOpen cfg cap o st).position.positionSide =
      st.position.positionSide := by
  simp only [limitFillOpen]
  repeat' split
  all_goals rfl

/-- The LIMIT close block preserves the margin invariant when the
fill does not flip the position side. -/
lemma marginInv_limitFillClose (cfg : FeesCfg) (o : Order)
    (st : BotState) (h : marginInv st.position)
    (hnf : ¬ limitFlip st.position o) :
    marginInv (limitFillClose cfg o st).position := by
  simp only [limitFillClose]
  by_cases h1 : limitGuard st.position o.side
  · rw [if_pos h1]
    have hsz : (updatePositionMargin
        { st.position with size := st.position.size + o.quantity }).size =
        st.position.size + o.quantity := rfl
    rw [hsz]
    by_cases hz : st.position.size + o.quantity = 0
    · rw [if_pos hz]
      split
      · next hflip =>
        exfalso
        rcases hflip with ⟨_, hp⟩ | ⟨_, hp⟩
        · have hp2 : (0:ℚ) < st.position.size + o.quantity := hp
          rw [hz] at hp2
          exact lt_irrefl 0 hp2
        · have hp2 : st.position.size + o.quantity < (0:ℚ) := hp
          rw [hz] at hp2
          exact lt_irrefl 0 hp2
      · exact marginInv_zero _ hz rfl
    · rw [if_neg hz]
      split
      · next hflip => exact absurd hflip hnf
      · exact marginInv_updatePositionMargin _
  · rw [if_neg h1]
    exact h

/-- A stop fill always re-establishes the margin invariant. -/
lemma marginInv_stopFill (cfg : FeesCfg) (o : Order) (st : BotState) :
    marginInv (stopFill cfg o st).position := by
  simp only [stopFill]
  have hsz : (updatePositionMargin
      { st.position with size := st.position.size + o.quantity }).size =
      st.position.size + o.quantity := rfl
  rw [hsz]
  by_cases hz : st.position.size + o.quantity = 0
  · rw [if_pos hz]
    exact marginInv_zero _ hz rfl
  · rw [if_neg hz]
    exact marginInv_updatePositionMargin _

/-- One pending-order evaluation preserves the margin invariant when
no side flip occurs in the limit close block. -/
lemma marginInv_processOrder (cfg : FeesCfg) (cap : LoopCaptured)
    (candle : CandleData) (st : BotState) (o : Order)
    (h : marginInv st.position)
    (hnf : ¬ limitFlip (limitFillOpen cfg cap o st).position o) :
    marginInv (processOrder cfg cap candle st o).position := by
  simp only [processOrder]
  split
  · exact marginInv_limitFillClose cfg o _
      (marginInv_limitFillOpen cfg cap o st h) hnf
  · split
    · exact marginInv_stopFill cfg o st
    · exact h

/-- The liquidation check preserves the margin invariant. -/
lemma marginInv_checkPositionMargin (cfg : FeesCfg) (qp oid : ℕ)
    (price : ℚ) (st : BotState) (h : marginInv st.position) :
    marginInv (checkPositionMargin cfg qp oid price st).position := by
  simp only [checkPositionMargin]
  split
  · exact marginInv_order cfg qp oid price _ _ OrderType.MARKET st h
  · exact h

/-- C3 (amended): the margin invariant `margin = |size × entryPrice| /
leverage` is preserved by every `order` execution (market open/add,
market reduce/close, limit/stop placement), by the liquidation check,
and by every pending-order evaluation whose limit close block does
not flip the position side; after a side-flipping limit fill the
margin instead keeps the value computed from the pre-flip entry
price. -/
theorem margin_invariant_amended :
    (∀ (cfg : FeesCfg) (qp oid : ℕ) (price qty : ℚ) (side : Side)
        (t : OrderType) (st : BotState), marginInv st.position →
        marginInv (order cfg qp oid price qty side t st).position) ∧
    (∀ (cfg : FeesCfg) (qp oid : ℕ) (price : ℚ) (st : BotState),
        marginInv st.position →
        marginInv (checkPositionMargin cfg qp oid price st).position) ∧
    (∀ (cfg : FeesCfg) (cap : LoopCaptured) (candle : CandleData)
        (st : BotState) (o : Order), marginInv st.position →
        ¬ limitFlip (limitFillOpen cfg cap o st).position o →
        marginInv (processOrder cfg cap candle st o).position) :=
  ⟨marginInv_order, marginInv_checkPositionMargin, marginInv_processOrder⟩

/-- C3 counterexample: the limit fill that flips the long into a
short of 1 unit at entry 110 with leverage 1 leaves margin 105, while
`|size × entryPrice| / leverage = 110` — the claimed invariant fails
after this flip operation. -/
theorem margin_invariant_flip_counterexample :
    (checkOpenOrders cfgZero candleWide stOneLimit).position.entryPrice
      = 110 ∧
    (checkOpenOrders cfgZero candleWide stOneLimit).position.size = -1 ∧
    (checkOpenOrders cfgZero candleWide stOneLimit).position.leverage = 1 ∧
    (checkOpenOrders cfgZero candleWide stOneLimit).position.margin = 105 ∧
    ¬ marginInv (checkOpenOrders cfgZero candleWide stOneLimit).position := by
  norm_num [stOneLimit, posLong1, candleWide, sellLimitOrder, marginInv,
    checkOpenOrders, checkOrdersLoop, sortPriceDesc, insertPriceDesc,
    processOrder, limitFillOpen, limitFillClose, stopFill, limitGuard,
    priceTouched, closeOpenOrder, closeOpenOrders, addToHistoric,
    getPositionPNL, updatePositionMargin, updateWalletOnPositionClose,
    updateTradeStats, cfgZero, StrategyReport.init, List.cons_ne_nil,
    abs_of_pos, abs_of_nonneg, abs_of_nonpos, sell_eq_buy_false,
    buy_eq_sell_false, long_eq_short_false, short_eq_long_false]

/-- C3 witness: the amended theorem applied to the Scenario A market
open and to a non-flipping partial-close limit fill. -/
theorem margin_invariant_amended_witness :
    marginInv (order cfgTaker 0 1 100 1 Side.BUY OrderType.MARKET
      stFlat).position ∧
    marginInv (processOrder cfgZero
      ⟨stHeld.position.entryPrice, stHeld.position.size,
        stHeld.position.leverage⟩
      candleWide stHeld halfCloseOrder).position :=
  ⟨margin_invariant_amended.1 cfgTaker 0 1 100 1 Side.BUY OrderType.MARKET
      stFlat (by norm_num [marginInv, stFlat]),
    margin_invariant_amended.2.2 cfgZero
      ⟨stHeld.position.entryPrice, stHeld.position.size,
        stHeld.position.leverage⟩
      candleWide stHeld halfCloseOrder
      (by norm_num [marginInv, stHeld, posLong1, abs_of_pos])
      (by norm_num [limitFlip, limitFillOpen, limitGuard, stHeld, posLong1,
        halfCloseOrder, cfgZero, updatePositionMargin, addToHistoric,
        StrategyReport.init, abs_of_pos, abs_of_nonneg, abs_of_nonpos,
        sell_eq_buy_false, buy_eq_sell_false, long_eq_short_false,
        short_eq_long_false])⟩

/-- A market order for the negated position size, on the side
opposite to the position, fully closes it: final size zero, pending
orders untouched, one CLOSE row appended with the realized pnl. -/
lemma order_liquidation_close (cfg : FeesCfg) (qp oid : ℕ) (price : ℚ)
    (st : BotState) (side : Side)
    (hside : side = if st.position.positionSide = PositionSide.LONG then
      Side.SELL else Side.BUY)
    (hsz : st.position.size ≠ 0)
    (hq : decimalRound (-st.position.size) qp = -st.position.size) :
    (order cfg qp oid price (-st.position.size) side
      OrderType.MARKET st).position.size = 0 ∧
    (order cfg qp oid price (-st.position.size) side
      OrderType.MARKET st).openOrders = st.openOrders ∧
    ∃ b, (order cfg qp oid price (-st.position.size) side
      OrderType.MARKET st).historic = st.historic ++
        [⟨side, OrderType.MARKET, TradeAction.CLOSE, -st.position.size,
          price, some (getPositionPNL st.position price), b⟩] := by
  have hno : ¬ marketOpenCond st.position side := by
    rcases h : st.position.positionSide <;>
      simp [hside, h, marketOpenCond, hsz, sell_eq_buy_false,
        buy_eq_sell_false, long_eq_short_false, short_eq_long_false]
  have hcl : (st.position.positionSide = PositionSide.LONG ∧
      side = Side.SELL) ∨
      (st.position.positionSide = PositionSide.SHORT ∧ side = Side.BUY) := by
    rcases h : st.position.positionSide <;> simp [hside, h]
  simp only [order]
  rw [if_neg hno, if_pos hcl, hq]
  rw [show st.position.size + -st.position.size = (0:ℚ) from by ring]
  rw [if_pos rfl]
  exact ⟨rfl, rfl, _, rfl⟩

/-- Below the maintenance threshold the liquidation check returns the
state unchanged. -/
lemma checkPositionMargin_not_liq (cfg : FeesCfg) (qp oid : ℕ)
    (currentPrice : ℚ) (st : BotState)
    (h : ¬ liquidationCond st.position currentPrice) :
    checkPositionMargin cfg qp oid currentPrice st = st := by
  simp only [checkPositionMargin]
  rw [if_neg h]

/-- At or below the maintenance threshold the position is force
closed, pending orders canceled and the close recorded. -/
lemma checkPositionMargin_liq (cfg : FeesCfg) (qp oid : ℕ)
    (currentPrice : ℚ) (st : BotState)
    (h : liquidationCond st.position currentPrice)
    (hq : decimalRound (-st.position.size) qp = -st.position.size) :
    (checkPositionMargin cfg qp oid currentPrice st).position.size = 0 ∧
    (checkPositionMargin cfg qp oid currentPrice st).openOrders = [] ∧
    ∃ r1 r2, (checkPositionMargin cfg qp oid currentPrice st).historic =
      st.historic ++ [r1, r2] ∧ r2.type = OrderType.MARKET ∧
      r2.action = TradeAction.CLOSE ∧ r2.price = currentPrice := by
  obtain ⟨h1, h2, b, h3⟩ := order_liquidation_close cfg qp oid currentPrice
    st _ rfl h.1 hq
  simp only [checkPositionMargin]
  rw [if_pos h]
  refine ⟨h1, rfl, ?_⟩
  simp only [addToHistoric, closeOpenOrders]
  rw [h3, List.append_assoc]
  exact ⟨_, _, rfl, rfl, rfl, rfl⟩

/-- A price sequence never meeting the liquidation condition leaves
the state untouched. -/
lemma liquidationSweep_id (cfg : FeesCfg) (qp oid : ℕ) (st : BotState) :
    ∀ prices : List ℚ, (∀ q ∈ prices, ¬ liquidationCond st.position q) →
      liquidationSweep cfg qp oid st prices = st
  | [], _ => rfl
  | q :: prices, h => by
    have h1 : checkPositionMargin cfg qp oid q st = st :=
      checkPositionMargin_not_liq cfg qp oid q st
        (h q (List.mem_cons_self q prices))
    show liquidationSweep cfg qp oid (checkPositionMargin cfg qp oid q st)
      prices = st
    rw [h1]
    exact liquidationSweep_id cfg qp oid st prices
      (fun r hr => h r (List.mem_cons_of_mem q hr))

/-- C6: the liquidation rule.  (1) When a position's margin plus
unrealized pnl falls to the maintenance margin
(`|size × price| × 0.005`), `checkPositionMargin` force-closes it by a
market order at the current price (final size 0), cancels every
pending order of the symbol and appends the close and liquidation
historic rows; (2) when the condition does not hold the state is
returned unchanged; (3) hence over a sequence of bars with no other
operation interleaved, the force close happens exactly at the first
bar whose price satisfies the condition — the state is untouched on
every earlier bar.  The rounding hypothesis states that the position
size is representable at the symbol's quantity precision. -/
theorem liquidation_rule (cfg : FeesCfg) (qp oid : ℕ) (currentPrice : ℚ)
    (st : BotState)
    (hq : decimalRound (-st.position.size) qp = -st.position.size) :
    (liquidationCond st.position currentPrice →
      (checkPositionMargin cfg qp oid currentPrice st).position.size = 0 ∧
      (checkPositionMargin cfg qp oid currentPrice st).openOrders = [] ∧
      ∃ r1 r2, (checkPositionMargin cfg qp oid currentPrice st).historic =
        st.historic ++ [r1, r2] ∧ r2.type = OrderType.MARKET ∧
        r2.action = TradeAction.CLOSE ∧ r2.price = currentPrice) ∧
    (¬ liquidationCond st.position currentPrice →
      checkPositionMargin cfg qp oid currentPrice st = st) ∧
    (∀ (pre : List ℚ) (p : ℚ),
      (∀ q ∈ pre, ¬ liquidationCond st.position q) →
      liquidationCond st.position p →
      liquidationSweep cfg qp oid st pre = st ∧
      (liquidationSweep cfg qp oid st
        (pre ++ [p])).position.size = 0) := by
  refine ⟨fun h => checkPositionMargin_liq cfg qp oid currentPrice st h hq,
    fun h => checkPositionMargin_not_liq cfg qp oid currentPrice st h,
    fun pre p hpre hp => ?_⟩
  have hid := liquidationSweep_id cfg qp oid st pre hpre
  refine ⟨hid, ?_⟩
  have happ : liquidationSweep cfg qp oid st (pre ++ [p]) =
      checkPositionMargin cfg qp oid p (liquidationSweep cfg qp oid st pre) := by
    simp [liquidationSweep, List.foldl_append]
  rw [happ, hid]
  exact (checkPositionMargin_liq cfg qp oid p st hp hq).1

/-- C6 witness: the leverage-10 long liquidates exactly when the price
reaches 90 (margin 10 + pnl −10 = 0 ≤ maintenance 0.45) and is left
untouched at price 100. -/
theorem liquidation_rule_witness :
    (checkPositionMargin cfgZero 0 11 90 stLev10).position.size = 0 ∧
    (checkPositionMargin cfgZero 0 11 90 stLev10).openOrders = [] ∧
    liquidationSweep cfgZero 0 11 stLev10 [100] = stLev10 ∧
    (liquidationSweep cfgZero 0 11 stLev10
      ([100] ++ [90])).position.size = 0 := by
  have hq : decimalRound (-stLev10.position.size) 0 =
      -stLev10.position.size := by
    norm_num [decimalRound, stLev10]
  have hliq : liquidationCond stLev10.position 90 := by
    norm_num [liquidationCond, getPositionPNL, stLev10, abs_of_pos]
  have hnot : ∀ q ∈ [(100:ℚ)], ¬ liquidationCond stLev10.position q := by
    intro q hqmem
    rw [List.mem_singleton] at hqmem
    subst hqmem
    norm_num [liquidationCond, getPositionPNL, stLev10, abs_of_pos]
  have h1 := (liquidation_rule cfgZero 0 11 90 stLev10 hq).1 hliq
  have h3 := (liquidation_rule cfgZero 0 11 90 stLev10 hq).2.2
    [100] 90 hnot hliq
  exact ⟨h1.1, h1.2.1, h3.1, h3.2⟩

/-- When no scanned bar (beyond index 0) closes after the date, the
indexer loop keeps the previous end. -/
lemma go_no_break (pairCandles : List CandleData) (currentDate : ℤ)
    (maxLen : ℕ) :
    ∀ (fuel i indexStart indexEnd : ℕ),
      (∀ j (hj : j < pairCandles.length), i ≤ j →
        ((pairCandles.get ⟨j, hj⟩).closeTime ≤ currentDate ∨ j = 0)) →
      (updateCandleIndexesGo pairCandles currentDate maxLen fuel i
        indexStart indexEnd).2 = indexEnd := by
  intro fuel
  induction fuel with
  | zero => intro i indexStart indexEnd _; rfl
  | succ n ih =>
    intro i indexStart indexEnd hall
    unfold updateCandleIndexesGo
    by_cases hi : i < pairCandles.length
    · rw [dif_pos hi]
      have hcond : ¬ (currentDate < (pairCandles.get ⟨i, hi⟩).closeTime ∧
          0 < i) := by
        rcases hall i hi le_rfl with hle | hzero
        · exact fun hc => absurd hc.1 (not_lt.mpr hle)
        · exact fun hc => by omega
      rw [if_neg hcond]
      exact ih (i + 1) _ indexEnd (fun j hj hij => hall j hj (by omega))
    · rw [dif_neg hi]

/-- The indexer loop returns `b - 1` where `b` is the first scanned
index (with `b > 0`) whose bar closes after the date. -/
lemma go_break (pairCandles : List CandleData) (currentDate : ℤ)
    (maxLen : ℕ) :
    ∀ (fuel i indexStart indexEnd b : ℕ) (hb : b < pairCandles.length),
      i ≤ b → b + 1 ≤ i + fuel →
      currentDate < (pairCandles.get ⟨b, hb⟩).closeTime → 0 < b →
      (∀ j (hj : j < pairCandles.length), i ≤ j → j < b →
        ¬ (currentDate < (pairCandles.get ⟨j, hj⟩).closeTime ∧ 0 < j)) →
      (updateCandleIndexesGo pairCandles currentDate maxLen fuel i
        indexStart indexEnd).2 = b - 1 := by
  intro fuel
  induction fuel with
  | zero => intro i indexStart indexEnd b hb hib hfuel _ _ _; omega
  | succ n ih =>
    intro i indexStart indexEnd b hb hib hfuel hTb hb0 hmin
    unfold updateCandleIndexesGo
    have hi : i < pairCandles.length := lt_of_le_of_lt hib hb
    rw [dif_pos hi]
    by_cases hieq : i = b
    · subst hieq
      rw [if_pos ⟨hTb, hb0⟩]
    · have hilt : i < b := lt_of_le_of_ne hib hieq
      rw [if_neg (hmin i hi le_rfl hilt)]
      exact ih (i + 1) _ indexEnd b hb (by omega) (by omega) hTb hb0
        (fun j hj h1 h2 => hmin j hj (by omega) h2)

/-- The indexer loop keeps `end - start` within the window bound. -/
lemma go_window (pairCandles : List CandleData) (currentDate : ℤ)
    (maxLen : ℕ) :
    ∀ (fuel i indexStart indexEnd : ℕ),
      i ≤ indexStart + maxLen + 1 → indexEnd ≤ indexStart + maxLen →
      (updateCandleIndexesGo pairCandles currentDate maxLen fuel i
        indexStart indexEnd).2 ≤
      (updateCandleIndexesGo pairCandles currentDate maxLen fuel i
        indexStart indexEnd).1 + maxLen := by
  intro fuel
  induction fuel with
  | zero => intro i indexStart indexEnd _ h2; exact h2
  | succ n ih =>
    intro i indexStart indexEnd h1 h2
    unfold updateCandleIndexesGo
    by_cases hi : i < pairCandles.length
    · rw [dif_pos hi]
      by_cases hc : currentDate < (pairCandles.get ⟨i, hi⟩).closeTime ∧
          0 < i
      · rw [if_pos hc]
        show i - 1 ≤ indexStart + maxLen
        omega
      · rw [if_neg hc]
        by_cases hadv : maxLen < i - indexStart
        · rw [if_pos hadv]
          exact ih (i + 1) (indexStart + 1) indexEnd (by omega) (by omega)
        · rw [if_neg hadv]
          exact ih (i + 1) indexStart indexEnd (by omega) h2
    · rw [dif_neg hi]
      exact h2

/-- C8 amended: the contract `updateCandleDataIndexes` actually meets.
(1) When every bar from the previous end on closes at or before the
timestamp (or is bar 0), the returned end stays at the previous value —
even when newer bars satisfy the timestamp.  (2) When the bars are
sorted by close time, the bar at the previous end is not after the
timestamp, and some bar closes strictly after the timestamp, the
returned end is exactly the index of the last bar whose close time is
not after the timestamp.  (3) The returned pair satisfies
`end − start ≤ maxLen` whenever the previous pair did. -/
theorem window_indexer_amended (pairCandles : List CandleData)
    (currentDate : ℤ) (maxLen indexStart indexEnd : ℕ) :
    ((∀ j (hj : j < pairCandles.length), indexEnd ≤ j →
        ((pairCandles.get ⟨j, hj⟩).closeTime ≤ currentDate ∨ j = 0)) →
      (updateCandleDataIndexes pairCandles currentDate maxLen indexStart
        indexEnd).2 = indexEnd) ∧
    ((∀ i j (hi : i < pairCandles.length) (hj : j < pairCandles.length),
        i ≤ j → (pairCandles.get ⟨i, hi⟩).closeTime ≤
          (pairCandles.get ⟨j, hj⟩).closeTime) →
      ∀ (hEnd : indexEnd < pairCandles.length),
      (pairCandles.get ⟨indexEnd, hEnd⟩).closeTime ≤ currentDate →
      ∀ k (hk : k < pairCandles.length),
      currentDate < (pairCandles.get ⟨k, hk⟩).closeTime →
      ∃ he : (updateCandleDataIndexes pairCandles currentDate maxLen
          indexStart indexEnd).2 < pairCandles.length,
        (pairCandles.get ⟨(updateCandleDataIndexes pairCandles currentDate
          maxLen indexStart indexEnd).2, he⟩).closeTime ≤ currentDate ∧
        ∀ j (hj : j < pairCandles.length),
          (updateCandleDataIndexes pairCandles currentDate maxLen
            indexStart indexEnd).2 < j →
          currentDate < (pairCandles.get ⟨j, hj⟩).closeTime) ∧
    (indexEnd ≤ indexStart + maxLen →
      (updateCandleDataIndexes pairCandles currentDate maxLen indexStart
        indexEnd).2 ≤
      (updateCandleDataIndexes pairCandles currentDate maxLen indexStart
        indexEnd).1 + maxLen) := by
  refine ⟨?_, ?_, ?_⟩
  · intro hall
    exact go_no_break pairCandles currentDate maxLen _ indexEnd indexStart
      indexEnd hall
  · intro hsort hEnd hEndLe k hk hkT
    have hkpos : indexEnd < k := by
      by_contra hle
      push_neg at hle
      exact absurd (lt_of_le_of_lt
        (le_trans (hsort k indexEnd hk hEnd hle) hEndLe) hkT) (lt_irrefl _)
    have hex : ∃ j, breakAt pairCandles currentDate j :=
      ⟨k, hk, by rwa [List.getD_eq_get pairCandles default hk], by omega⟩
    set b := Nat.find hex with hbdef
    obtain ⟨hblen, hbT, hbpos⟩ := Nat.find_spec hex
    rw [List.getD_eq_get pairCandles default hblen] at hbT
    have hEndb : indexEnd < b := by
      rcases lt_or_le indexEnd b with hlt | hle
      · exact hlt
      · exact absurd (lt_of_le_of_lt
          (le_trans (hsort b indexEnd hblen hEnd hle) hEndLe) hbT)
          (lt_irrefl _)
    have hmin : ∀ j (hj : j < pairCandles.length), indexEnd ≤ j → j < b →
        ¬ (currentDate < (pairCandles.get ⟨j, hj⟩).closeTime ∧ 0 < j) := by
      intro j hj _ hjb hcontra
      have hTj : currentDate < (pairCandles.getD j default).closeTime := by
        rw [List.getD_eq_get pairCandles default hj]
        exact hcontra.1
      exact Nat.find_min hex hjb ⟨hj, hTj, hcontra.2⟩
    have hres : (updateCandleDataIndexes pairCandles currentDate maxLen
        indexStart indexEnd).2 = b - 1 := by
      unfold updateCandleDataIndexes
      exact go_break pairCandles currentDate maxLen _ indexEnd indexStart
        indexEnd b hblen (by omega) (by omega) hbT hbpos hmin
    rw [hres]
    have hb1len : b - 1 < pairCandles.length := by omega
    refine ⟨hb1len, ?_, ?_⟩
    · by_cases hb1 : b - 1 = 0
      · have heq : (⟨b - 1, hb1len⟩ : Fin pairCandles.length) =
            ⟨indexEnd, hEnd⟩ := Fin.ext (show b - 1 = indexEnd by omega)
        rw [heq]
        exact hEndLe
      · have hnb : ¬ breakAt pairCandles currentDate (b - 1) :=
          Nat.find_min hex (by omega)
        rcases not_and_or.mp (fun hcontra => hnb
          ⟨hb1len, hcontra.1, hcontra.2⟩) with hT | hpos
        · rw [List.getD_eq_get pairCandles default hb1len] at hT
          exact le_of_not_lt hT
        · omega
    · intro j hj hbj
      have hble : b ≤ j := by omega
      exact lt_of_lt_of_le hbT (hsort b j hblen hj hble)
  · intro hwin
    unfold updateCandleDataIndexes
    exact go_window pairCandles currentDate maxLen _ indexEnd indexStart
      indexEnd (by omega) hwin

/-- C8 witness: on bars closing at 1, 2, 10 with timestamp 5 the
returned end is the index of the last bar not after the timestamp; on
bars closing at 1, 2 it stays at the previous value; the window bound
holds. -/
theorem window_indexer_amended_witness :
    (∃ he : (updateCandleDataIndexes threeBars 5 3 0 0).2 <
        threeBars.length,
      (threeBars.get ⟨(updateCandleDataIndexes threeBars 5 3 0 0).2,
        he⟩).closeTime ≤ 5 ∧
      ∀ j (hj : j < threeBars.length),
        (updateCandleDataIndexes threeBars 5 3 0 0).2 < j →
        5 < (threeBars.get ⟨j, hj⟩).closeTime) ∧
    (updateCandleDataIndexes [barOne, barTwo] 5 3 0 0).2 = 0 ∧
    (updateCandleDataIndexes threeBars 5 3 0 0).2 ≤
      (updateCandleDataIndexes threeBars 5 3 0 0).1 + 3 :=
  ⟨(window_indexer_amended threeBars 5 3 0 0).2.1
      (by
        intro i j hi hj hij
        have hi3 : i < 3 := hi
        have hj3 : j < 3 := hj
        interval_cases i <;> interval_cases j <;>
          exact of_decide_eq_true rfl)
      (by decide) (by decide) 2 (by decide) (by decide),
    (window_indexer_amended [barOne, barTwo] 5 3 0 0).1
      (by
        intro j hj _
        have hj2 : j < 2 := hj
        interval_cases j <;> exact Or.inl (of_decide_eq_true rfl)),
    (window_indexer_amended threeBars 5 3 0 0).2.2 (by decide)⟩

end Backtest
